import Mathlib

/-!
# Roaring bitmap v1 vs v2 size comparison driver (`src/main.cpp`)

A shallow embedding of the comparison driver: the twelve test vectors built by
`main`, and the report computed by `compare_size` from the two sizes returned by
the external measurement functions `test_roaring_v1` and `test_roaring_v2`.

* `uint64_t` and `size_t` values are natural numbers; every arithmetic step of
  the source that is performed in 64-bit unsigned arithmetic is reduced
  modulo `2 ^ 64` explicitly (`u64`).
* `int64_t` values are integers; the conversion `static_cast<int64_t>` is the
  two's complement reinterpretation and the signed subtraction is partial
  (no result where the C++ operation overflows).
* `double` values are rationals; every floating-point operation is the exact
  operation followed by rounding to the nearest binary64 value, ties to even
  (`roundDouble`). The two-decimal text written for the percentage under
  `std::fixed << std::setprecision(2)` is `setprecision2`.
* The external measurement functions are parameters of `compare_size`, and the
  calls made to them are recorded in a call log.
-/

namespace RoaringCompare

/-! ## Machine arithmetic -/

/-- Reduction of a natural number to the range of `uint64_t` / `size_t`. -/
def u64 (n : Nat) : Nat := n % 2 ^ 64

/-- The conversion `static_cast<int64_t>(x)` of a 64-bit unsigned value: values
from `2 ^ 63` on are reinterpreted as negative numbers. -/
def toInt64 (x : Nat) : Int :=
  if u64 x < 2 ^ 63 then (u64 x : Int) else (u64 x : Int) - 2 ^ 64

/-- Subtraction of two `int64_t` values. The result is `none` where the exact
difference does not fit in `int64_t` (signed overflow has no defined result). -/
def subInt64 (x y : Int) : Option Int :=
  if -(2 ^ 63) ≤ x - y ∧ x - y < 2 ^ 63 then some (x - y) else none

/-- Rounding of a rational to the nearest integer, ties to the even one. -/
def roundHalfEven (q : ℚ) : ℤ :=
  if q - ⌊q⌋ < 1 / 2 then ⌊q⌋
  else if 1 / 2 < q - ⌊q⌋ then ⌊q⌋ + 1
  else if ⌊q⌋ % 2 = 0 then ⌊q⌋ else ⌊q⌋ + 1

/-- The number of halvings that bring a rational `q ≥ 1` below `2`, at most
`fuel` of them. -/
def exponentUp : Nat → ℚ → ℤ
  | 0, _ => 0
  | fuel + 1, q => if q < 2 then 0 else exponentUp fuel (q / 2) + 1

/-- Minus the number of doublings that bring a rational `q < 1` to `1` or
above, at most `fuel` of them. -/
def exponentDown : Nat → ℚ → ℤ
  | 0, _ => 0
  | fuel + 1, q => if 1 ≤ q then 0 else exponentDown fuel (q * 2) - 1

/-- The binary64 exponent used for a non-negative rational `q`: the `e` with
`2 ^ e ≤ q < 2 ^ (e + 1)`, kept within the exponent range `-1022 .. 1023` of the
format (below `2 ^ (-1022)` the exponent stays `-1022`: gradual underflow). -/
def binade (q : ℚ) : ℤ :=
  if 1 ≤ q then exponentUp 1023 q else exponentDown 1022 q

/-- Rounding of a non-negative rational to the nearest binary64 magnitude, ties
to even: the value is brought to a multiple of `2 ^ (e - 52)` for its exponent
`e`, which leaves a significand of 53 bits. Overflow to infinity is not
modelled: the magnitudes that arise from sizes below `2 ^ 64` stay below
`2 ^ 71`. -/
def roundMagnitude (q : ℚ) : ℚ :=
  (roundHalfEven (q * 2 ^ (52 - binade q)) : ℚ) * 2 ^ (binade q - 52)

/-- Rounding of a rational to the nearest binary64 value, ties to even
(binary64 is a sign-magnitude format). -/
def roundDouble (q : ℚ) : ℚ :=
  if q < 0 then -roundMagnitude (-q) else roundMagnitude q

/-- The conversion of a 64-bit unsigned value to `double`. -/
def toDouble (n : Nat) : ℚ := roundDouble (n : ℚ)

/-- Division of two `double` values (the divisor is non-zero wherever the
driver divides). -/
def fdiv (x y : ℚ) : ℚ := roundDouble (x / y)

/-- Multiplication of two `double` values. -/
def fmul (x y : ℚ) : ℚ := roundDouble (x * y)

/-- Subtraction of two `double` values. -/
def fsub (x y : ℚ) : ℚ := roundDouble (x - y)

/-! ## Test vectors built by `main` -/

/-- The method `values.push_back(x)` of `std::vector<uint64_t>`. -/
def push_back (values : List Nat) (x : Nat) : List Nat := values ++ [x]

/-- The loop `for (i = 0; i < n; ++i) body`, threading the loop state through
the counter values `0, 1, ..., n - 1`. -/
def forLoop {σ : Type} (n : Nat) (body : σ → Nat → σ) (init : σ) : σ :=
  (List.range n).foldl body init

/-- Test 1: the empty vector. -/
def test1_values : List Nat := []

/-- Test 2: the initializer list `{42}`. -/
def test2_values : List Nat := [42]

/-- Test 3: `push_back(i)` for `i < 100`. -/
def test3_values : List Nat :=
  forLoop 100 (fun values i => push_back values i) []

/-- Test 4: `push_back(i)` for `i < 10000`. -/
def test4_values : List Nat :=
  forLoop 10000 (fun values i => push_back values i) []

/-- Test 5: `push_back(i * 1000)` for `i < 1000`. -/
def test5_values : List Nat :=
  forLoop 1000 (fun values i => push_back values (u64 (i * 1000))) []

/-- Test 6: `push_back(i * 1000000)` for `i < 100`. -/
def test6_values : List Nat :=
  forLoop 100 (fun values i => push_back values (u64 (i * 1000000))) []

/-- Test 7: the dense part `push_back(i)` for `i < 1000`, then the sparse part
`push_back(100000 + i * 1000)` for `i < 100`. -/
def test7_values : List Nat :=
  forLoop 100 (fun values i => push_back values (u64 (100000 + u64 (i * 1000))))
    (forLoop 1000 (fun values i => push_back values i) [])

/-- Test 8: `push_back((1ULL << 32) + i)` for `i < 1000`. -/
def test8_values : List Nat :=
  forLoop 1000 (fun values i => push_back values (u64 (u64 (1 <<< 32) + i))) []

/-- Test 9: for `bucket < 5`, for `i < 100`, `push_back((bucket << 32) + i)`. -/
def test9_values : List Nat :=
  forLoop 5 (fun values bucket =>
    forLoop 100 (fun values i => push_back values (u64 (u64 (bucket <<< 32) + i))) values) []

/-- Test 10: `push_back(i)` for `i < 10000` (measured with `portable = false`). -/
def test10_values : List Nat :=
  forLoop 10000 (fun values i => push_back values i) []

/-- The update `val = (val * 1103515245 + 12345) & 0x7FFFFFFF` of Test 11, in
64-bit unsigned arithmetic. -/
def lcg_next (val : Nat) : Nat :=
  u64 (u64 (val * 1103515245) + 12345) &&& 0x7FFFFFFF

/-- Test 11: starting from `val = 1`, a thousand times `push_back(val)` followed
by the update of `val`. The loop state is the pair of the vector and `val`. -/
def test11_values : List Nat :=
  (forLoop 1000 (fun (s : List Nat × Nat) _ => (push_back s.1 s.2, lcg_next s.2))
    ([], 1)).1

/-- Test 12: `push_back(1ULL << i)` for `i < 40`. -/
def test12_values : List Nat :=
  forLoop 40 (fun values i => push_back values (u64 (1 <<< i))) []

/-- The bucket of a value, in the sense of the specification of the driver: its
upper 32 bits (`value >> 32`). -/
def bucket (value : Nat) : Nat := u64 value >>> 32

/-! ## `compare_size` -/

/-- The two external measurement functions. -/
inductive Library where
  | v1
  | v2
  deriving DecidableEq, Repr

/-- One call `test_roaring_vN(values.data(), values.size(), portable)`: the
library called, the value sequence behind the pointer, the count and the
flag. -/
structure Call where
  library : Library
  values : List Nat
  count : Nat
  portable : Bool
  deriving DecidableEq, Repr

/-- The type of `test_roaring_v1` and `test_roaring_v2`: from the values, their
count and the portable flag to a size in bytes. -/
abbrev Measure := List Nat → Nat → Bool → Nat

/-- The evaluation of the conditional expression
`v1_size > 0 ? (static_cast<double>(v2_size) / v1_size * 100.0 - 100.0) : 0.0`:
its value, and whether the operand holding the division was the one
evaluated. -/
structure PercentageEval where
  value : ℚ
  divided : Bool
  deriving DecidableEq

/-- The percentage expression of `compare_size`. Only the selected operand of
the conditional operator is evaluated. -/
def percentage (v1_size v2_size : Nat) : PercentageEval :=
  if v1_size > 0 then
    ⟨fsub (fmul (fdiv (toDouble v2_size) (toDouble v1_size)) 100) 100, true⟩
  else ⟨0, false⟩

/-- The text written for a `double` under `std::fixed << std::setprecision(2)`:
a minus sign for a negative value, and the digits of the magnitude rounded to
the nearest hundredth (ties to even), held as the number of hundredths they
denote. So `⟨false, 0⟩` stands for `0.00`, `⟨true, 0⟩` for `-0.00` and
`⟨true, 5000⟩` for `-50.00`. -/
structure FixedText where
  minus : Bool
  hundredths : Nat
  deriving DecidableEq, Repr

/-- The formatting of a `double` under `std::fixed << std::setprecision(2)`. -/
def setprecision2 (x : ℚ) : FixedText :=
  ⟨decide (x < 0), (roundHalfEven (|x| * 100)).toNat⟩

/-- The expression `static_cast<int64_t>(v2_size) - static_cast<int64_t>(v1_size)`. -/
def difference (v1_size v2_size : Nat) : Option Int :=
  subInt64 (toInt64 v2_size) (toInt64 v1_size)

/-- The expression `(v1_size == v2_size ? "✓ YES" : "✗ NO")`. -/
def verdict (v1_size v2_size : Nat) : String :=
  if v1_size = v2_size then "✓ YES" else "✗ NO"

/-- The values streamed to the output by `compare_size`, in the order of the
source; the percentage is held both as the value of its expression and as the
two-decimal text written for it. -/
structure Report where
  description : String
  elements : Nat
  portable : String
  v1_size : Nat
  v2_size : Nat
  difference : Option Int
  percentage : PercentageEval
  percentage_text : FixedText
  verdict : String

/-- The function `compare_size`, given the two external measurement functions:
the report and the calls made, in order. -/
def compare_size (test_roaring_v1 test_roaring_v2 : Measure)
    (values : List Nat) (description : String) (portable : Bool) :
    Report × List Call :=
  let v1_size := test_roaring_v1 values values.length portable
  let log1 : List Call := [⟨Library.v1, values, values.length, portable⟩]
  let v2_size := test_roaring_v2 values values.length portable
  let log2 : List Call := log1 ++ [⟨Library.v2, values, values.length, portable⟩]
  ({ description := description
     elements := values.length
     portable := if portable then "Yes" else "No"
     v1_size := v1_size
     v2_size := v2_size
     difference := difference v1_size v2_size
     percentage := percentage v1_size v2_size
     percentage_text := setprecision2 (percentage v1_size v2_size).value
     verdict := verdict v1_size v2_size }, log2)

/-- One call of `compare_size` in `main`; the flag is `true` where the call
leaves the default argument. -/
structure TestCase where
  values : List Nat
  description : String
  portable : Bool

/-- The twelve calls of `compare_size` made by `main`, in order. -/
def main_tests : List TestCase :=
  [ ⟨test1_values, "Test 1: Empty Bitmap", true⟩,
    ⟨test2_values, "Test 2: Single Element", true⟩,
    ⟨test3_values, "Test 3: Small Dense Range (0-99)", true⟩,
    ⟨test4_values, "Test 4: Large Dense Range (0-9999)", true⟩,
    ⟨test5_values, "Test 5: Sparse Data (gaps of 1000)", true⟩,
    ⟨test6_values, "Test 6: Very Sparse Data (gaps of 1M)", true⟩,
    ⟨test7_values, "Test 7: Mixed Pattern (dense + sparse)", true⟩,
    ⟨test8_values, "Test 8: Large Values (high 32 bits set)", true⟩,
    ⟨test9_values, "Test 9: Multiple Buckets (5 buckets, 100 each)", true⟩,
    ⟨test10_values, "Test 10: Large Dense Range (non-portable)", false⟩,
    ⟨test11_values, "Test 11: Pseudo-random Pattern", true⟩,
    ⟨test12_values, "Test 12: Powers of 2", true⟩ ]

/-- The reports of `main`: `compare_size` on each of the twelve test cases. -/
def main (test_roaring_v1 test_roaring_v2 : Measure) : List Report :=
  main_tests.map (fun t =>
    (compare_size test_roaring_v1 test_roaring_v2 t.values t.description t.portable).1)

/-! ## Closed forms of the test vectors -/

theorem forLoop_succ {σ : Type} (n : Nat) (body : σ → Nat → σ) (init : σ) :
    forLoop (n + 1) body init = body (forLoop n body init) n := by
  simp [forLoop, List.range_succ]

theorem forLoop_push (f : Nat → Nat) (n : Nat) (init : List Nat) :
    forLoop n (fun values i => push_back values (f i)) init
      = init ++ (List.range n).map f := by
  induction n with
  | zero => simp [forLoop]
  | succ n ih =>
    rw [forLoop_succ, ih]
    simp [List.range_succ, push_back]

theorem forLoop_nested (f : Nat → Nat → Nat) (m : Nat) (hm : 0 < m) (nb : Nat) :
    forLoop nb (fun values b =>
        forLoop m (fun values i => push_back values (f b i)) values) []
      = (List.range (nb * m)).map (fun p => f (p / m) (p % m)) := by
  induction nb with
  | zero => simp [forLoop]
  | succ nb ih =>
    rw [forLoop_succ, ih, forLoop_push, Nat.succ_mul, List.range_add, List.map_append,
      List.map_map]
    congr 1
    apply List.map_congr_left
    intro i hi
    have hi' : i < m := List.mem_range.mp hi
    simp only [Function.comp]
    rw [Nat.mul_comm nb m, Nat.mul_add_div hm, Nat.mul_add_mod, Nat.div_eq_of_lt hi',
      Nat.mod_eq_of_lt hi', Nat.add_zero]

/-- Iterating the loop body of Test 11. -/
theorem forLoop_iterate (g : Nat → Nat) (n : Nat) (init : List Nat) (v : Nat) :
    forLoop n (fun (s : List Nat × Nat) _ => (push_back s.1 s.2, g s.2)) (init, v)
      = (init ++ (List.range n).map (fun k => g^[k] v), g^[n] v) := by
  induction n with
  | zero => simp [forLoop]
  | succ n ih =>
    rw [forLoop_succ, ih]
    simp [List.range_succ, push_back, Function.iterate_succ_apply']

theorem u64_of_lt {n : Nat} (h : n < 2 ^ 64) : u64 n = n := Nat.mod_eq_of_lt h

theorem test3_values_eq : test3_values = List.range 100 :=
  (forLoop_push (fun i => i) 100 []).trans (by rw [List.nil_append, List.map_id'])

theorem test4_values_eq : test4_values = List.range 10000 :=
  (forLoop_push (fun i => i) 10000 []).trans (by rw [List.nil_append, List.map_id'])

theorem test5_values_eq : test5_values = (List.range 1000).map (fun i => i * 1000) := by
  rw [test5_values, forLoop_push, List.nil_append]
  apply List.map_congr_left
  intro i hi
  have := List.mem_range.mp hi
  exact u64_of_lt (by omega)

theorem test6_values_eq : test6_values = (List.range 100).map (fun i => i * 1000000) := by
  rw [test6_values, forLoop_push, List.nil_append]
  apply List.map_congr_left
  intro i hi
  have := List.mem_range.mp hi
  exact u64_of_lt (by omega)

theorem test7_values_eq :
    test7_values = List.range 1000 ++ (List.range 100).map (fun i => 100000 + i * 1000) := by
  have key : ∀ i ∈ List.range 100, u64 (100000 + u64 (i * 1000)) = 100000 + i * 1000 := by
    intro i hi
    have := List.mem_range.mp hi
    rw [u64_of_lt (show i * 1000 < 2 ^ 64 by omega)]
    exact u64_of_lt (by omega)
  unfold test7_values
  rw [forLoop_push, forLoop_push, List.nil_append, List.map_id', List.map_congr_left key]

theorem test8_values_eq :
    test8_values = (List.range 1000).map (fun i => 2 ^ 32 + i) := by
  rw [test8_values, forLoop_push, List.nil_append]
  apply List.map_congr_left
  intro i hi
  have := List.mem_range.mp hi
  simp only [Nat.shiftLeft_eq, Nat.one_mul]
  rw [u64_of_lt (show 2 ^ 32 < 2 ^ 64 by norm_num)]
  exact u64_of_lt (by omega)

theorem test9_values_eq :
    test9_values = (List.range 500).map (fun p => (p / 100) * 2 ^ 32 + p % 100) := by
  rw [test9_values, forLoop_nested _ 100 (by norm_num) 5]
  apply List.map_congr_left
  intro p hp
  have hp' : p < 5 * 100 := List.mem_range.mp hp
  have h1 : p / 100 < 5 := by omega
  have h2 : p % 100 < 100 := Nat.mod_lt _ (by norm_num)
  simp only [Nat.shiftLeft_eq]
  rw [u64_of_lt (show p / 100 * 2 ^ 32 < 2 ^ 64 by omega)]
  exact u64_of_lt (by omega)

theorem test12_values_eq : test12_values = (List.range 40).map (fun i => 2 ^ i) := by
  rw [test12_values, forLoop_push, List.nil_append]
  apply List.map_congr_left
  intro i hi
  have hi' : i < 40 := List.mem_range.mp hi
  simp only [Nat.shiftLeft_eq, Nat.one_mul]
  apply u64_of_lt
  exact Nat.pow_lt_pow_right (by norm_num) (by omega)

theorem test11_values_eq :
    test11_values = (List.range 1000).map (fun k => lcg_next^[k] 1) := by
  rw [test11_values, forLoop_iterate, List.nil_append]

/-! ### The generator of Test 11 -/

theorem lcg_next_lt (v : Nat) : lcg_next v < 2 ^ 31 := by
  unfold lcg_next
  exact Nat.lt_of_le_of_lt Nat.and_le_right (by norm_num)

theorem mask_eq_mod (v : Nat) : v &&& 0x7FFFFFFF = v % 2 ^ 31 := by
  have h := Nat.and_pow_two_sub_one_eq_mod v 31
  norm_num at h ⊢
  exact h

theorem lcg_no_wrap {v : Nat} (h : v < 2 ^ 31) : v * 1103515245 + 12345 < 2 ^ 64 := by
  have : v * 1103515245 ≤ 2 ^ 31 * 1103515245 := Nat.mul_le_mul_right _ h.le
  omega

theorem lcg_next_eq {v : Nat} (h : v < 2 ^ 31) :
    lcg_next v = (v * 1103515245 + 12345) % 2 ^ 31 := by
  have h1 := lcg_no_wrap h
  unfold lcg_next
  rw [u64_of_lt (show v * 1103515245 < 2 ^ 64 by omega), u64_of_lt h1, mask_eq_mod]

theorem lcg_iterate_lt (k : Nat) : lcg_next^[k] 1 < 2 ^ 31 := by
  cases k with
  | zero => norm_num
  | succ k => rw [Function.iterate_succ_apply']; exact lcg_next_lt _

theorem lcg_next_inj {x y : Nat} (hx : x < 2 ^ 31) (hy : y < 2 ^ 31)
    (h : lcg_next x = lcg_next y) : x = y := by
  rw [lcg_next_eq hx, lcg_next_eq hy] at h
  have h1 : x * 1103515245 ≡ y * 1103515245 [MOD 2 ^ 31] := Nat.ModEq.add_right_cancel' 12345 h
  rw [Nat.mul_comm x, Nat.mul_comm y] at h1
  have h2 : x ≡ y [MOD 2 ^ 31] :=
    Nat.ModEq.cancel_left_of_coprime (by norm_num) h1
  exact Nat.ModEq.eq_of_lt_of_lt h2 hx hy

theorem lcg_no_return : ∀ x ∈ List.iterate lcg_next (lcg_next 1) 999, x ≠ 1 := by
  decide!

theorem lcg_iterate_ne_one {k : Nat} (h0 : 0 < k) (hk : k < 1000) : lcg_next^[k] 1 ≠ 1 := by
  obtain ⟨j, rfl⟩ : ∃ j, k = j + 1 := ⟨k - 1, by omega⟩
  apply lcg_no_return
  rw [List.mem_iterate]
  exact ⟨j, by omega, by rw [Function.iterate_succ_apply]⟩

theorem lcg_iterate_inj : ∀ i j : Nat, i < j → j < 1000 → lcg_next^[i] 1 ≠ lcg_next^[j] 1
  | 0, j, hij, hj => fun h => lcg_iterate_ne_one hij hj h.symm
  | i + 1, 0, hij, _ => absurd hij (Nat.not_lt_zero _)
  | i + 1, j + 1, hij, hj => by
    intro h
    rw [Function.iterate_succ_apply', Function.iterate_succ_apply'] at h
    exact lcg_iterate_inj i j (by omega) (by omega)
      (lcg_next_inj (lcg_iterate_lt i) (lcg_iterate_lt j) h)

/-! ## The test vectors -/

theorem test9_getElem? {p : Nat} (hp : p < 500) :
    test9_values[p]? = some ((p / 100) * 2 ^ 32 + p % 100) := by
  rw [test9_values_eq, List.getElem?_map, List.getElem?_range hp]
  rfl

/-- C5: the vector of Test 9 has exactly 500 elements; its element at position
`100 * b + i` is `(b << 32) + i` for every `b < 5` and `i < 100`; its values are
exactly the numbers `(b << 32) + i` with `b < 5` and `i < 100`; and its elements
are pairwise distinct. -/
theorem C5_test9_multi_bucket :
    test9_values.length = 500
    ∧ (∀ b i : Nat, b < 5 → i < 100 → test9_values[100 * b + i]? = some ((b <<< 32) + i))
    ∧ (∀ x : Nat, x ∈ test9_values ↔ ∃ b i : Nat, b < 5 ∧ i < 100 ∧ x = (b <<< 32) + i)
    ∧ test9_values.Nodup := by
  refine ⟨?_, ?_, ?_, ?_⟩
  · rw [test9_values_eq, List.length_map, List.length_range]
  · intro b i hb hi
    have e1 : (100 * b + i) / 100 = b := by omega
    have e2 : (100 * b + i) % 100 = i := by omega
    have h := test9_getElem? (show 100 * b + i < 500 by omega)
    rw [e1, e2] at h
    rw [h, Nat.shiftLeft_eq]
  · intro x
    rw [test9_values_eq, List.mem_map]
    constructor
    · rintro ⟨p, hp, rfl⟩
      have hp' : p < 500 := List.mem_range.mp hp
      exact ⟨p / 100, p % 100, by omega, by omega, by rw [Nat.shiftLeft_eq]⟩
    · rintro ⟨b, i, hb, hi, rfl⟩
      refine ⟨100 * b + i, List.mem_range.mpr (by omega), ?_⟩
      have e1 : (100 * b + i) / 100 = b := by omega
      have e2 : (100 * b + i) % 100 = i := by omega
      rw [e1, e2, Nat.shiftLeft_eq]
  · rw [test9_values_eq]
    apply List.Nodup.map_on _ (List.nodup_range 500)
    intro p hp q hq h
    have hp' : p < 500 := List.mem_range.mp hp
    have hq' : q < 500 := List.mem_range.mp hq
    omega

/-- Witness of C5 at bucket 3, index 7: position 307 holds `(3 << 32) + 7`. -/
theorem C5_test9_multi_bucket_witness :
    test9_values[100 * 3 + 7]? = some ((3 <<< 32) + 7) :=
  C5_test9_multi_bucket.2.1 3 7 (by decide) (by decide)

theorem test11_getElem? {k : Nat} (hk : k < 1000) :
    test11_values[k]? = some (lcg_next^[k] 1) := by
  rw [test11_values_eq, List.getElem?_map, List.getElem?_range hk]
  rfl

theorem test11_length : test11_values.length = 1000 := by
  rw [test11_values_eq, List.length_map, List.length_range]

theorem test11_nodup : test11_values.Nodup := by
  rw [test11_values_eq]
  apply List.Nodup.map_on _ (List.nodup_range 1000)
  intro i hi j hj h
  have hi' : i < 1000 := List.mem_range.mp hi
  have hj' : j < 1000 := List.mem_range.mp hj
  rcases Nat.lt_trichotomy i j with hlt | heq | hgt
  · exact absurd h (lcg_iterate_inj i j hlt hj')
  · exact heq
  · exact absurd h.symm (lcg_iterate_inj j i hgt hi')

/-- C2, as stated, fails: the first element of the vector of Test 11 is not
12345 (it is the seed 1). -/
theorem C2_first_element_not_12345 :
    ¬ (test11_values[0]? = some 12345
       ∧ test11_values[1]? = some ((12345 * 1103515245 + 12345) &&& 0x7FFFFFFF)) := by
  rw [test11_getElem? (show 0 < 1000 by norm_num)]
  intro h
  exact absurd (Option.some.inj h.1) (by decide)

/-- C2, amended: the vector of Test 11 begins with the seed 1 as its first
element, followed by `(1 * 1103515245 + 12345) & 0x7FFFFFFF = 1103527590` as its
second element. -/
theorem C2_test11_first_elements :
    test11_values[0]? = some 1
    ∧ test11_values[1]? = some ((1 * 1103515245 + 12345) &&& 0x7FFFFFFF)
    ∧ (1 * 1103515245 + 12345) &&& 0x7FFFFFFF = 1103527590 := by
  refine ⟨test11_getElem? (by norm_num), ?_, by decide⟩
  rw [test11_getElem? (show 1 < 1000 by norm_num)]
  decide

/-- C9: the vector of Test 11 has exactly 1000 elements, the first of which is
the seed 1; each element `x` is below `2 ^ 31`, so that the product and sum
`x * 1103515245 + 12345` stay below `2 ^ 64` and the update of the source
computes `(x * 1103515245 + 12345) mod 2 ^ 31`; every element after the first is
the update of the one before it; and the mask `& 0x7FFFFFFF` is `mod 2 ^ 31`. -/
theorem C9_test11_lcg_recurrence :
    test11_values.length = 1000
    ∧ test11_values[0]? = some 1
    ∧ (∀ n : Nat, n < 999 → ∃ x : Nat, test11_values[n]? = some x
        ∧ test11_values[n + 1]? = some ((x * 1103515245 + 12345) % 2 ^ 31))
    ∧ (∀ n : Nat, n < 1000 → ∃ x : Nat, test11_values[n]? = some x ∧ x < 2 ^ 31
        ∧ x * 1103515245 < 2 ^ 64 ∧ x * 1103515245 + 12345 < 2 ^ 64
        ∧ lcg_next x = (x * 1103515245 + 12345) % 2 ^ 31)
    ∧ (∀ v : Nat, v &&& 0x7FFFFFFF = v % 2 ^ 31) := by
  refine ⟨test11_length, test11_getElem? (by norm_num), ?_, ?_, mask_eq_mod⟩
  · intro n hn
    refine ⟨lcg_next^[n] 1, test11_getElem? (by omega), ?_⟩
    rw [test11_getElem? (show n + 1 < 1000 by omega), Function.iterate_succ_apply',
      lcg_next_eq (lcg_iterate_lt n)]
  · intro n hn
    have h := lcg_iterate_lt n
    have h1 := lcg_no_wrap h
    exact ⟨lcg_next^[n] 1, test11_getElem? hn, h, by omega, h1, lcg_next_eq h⟩

/-- Witness of C9 at position 1: the second element 1103527590 is below
`2 ^ 31` and is followed by its update. -/
theorem C9_test11_lcg_recurrence_witness :
    ∃ x : Nat, test11_values[1]? = some x
      ∧ test11_values[1 + 1]? = some ((x * 1103515245 + 12345) % 2 ^ 31) :=
  C9_test11_lcg_recurrence.2.2.1 1 (by decide)

theorem test6_getElem? {p : Nat} (hp : p < 100) :
    test6_values[p]? = some (p * 1000000) := by
  rw [test6_values_eq, List.getElem?_map, List.getElem?_range hp]
  rfl

theorem bucket_eq_zero {x : Nat} (h : x < 2 ^ 32) : bucket x = 0 := by
  unfold bucket
  rw [u64_of_lt (by omega), Nat.shiftRight_eq_div_pow]
  exact Nat.div_eq_of_lt h

/-- C8, as stated, fails: the elements at positions 0 and 1 of the vector of
Test 6 (the values 0 and 1000000) have the same bucket. -/
theorem C8_buckets_not_distinct :
    ¬ (∀ p q : Nat, p < 100 → q < 100 → p ≠ q →
        (test6_values[p]?).map bucket ≠ (test6_values[q]?).map bucket) := by
  intro h
  apply h 0 1 (by decide) (by decide) (by decide)
  rw [test6_getElem? (show 0 < 100 by decide), test6_getElem? (show 1 < 100 by decide)]
  simp only [Option.map_some']
  rw [bucket_eq_zero (by norm_num), bucket_eq_zero (by norm_num)]

/-- C8, amended: the element at position `p` of the vector of Test 6 is
`p * 1000000`, which is below `2 ^ 32`, so every element has bucket 0; what
differs between any two positions is the block of `2 ^ 16` consecutive values
the element falls in (`value / 2 ^ 16`). -/
theorem C8_test6_single_bucket (p q : Nat) (hp : p < 100) (hq : q < 100) (hpq : p ≠ q) :
    test6_values[p]? = some (p * 1000000)
    ∧ (test6_values[p]?).map bucket = some 0
    ∧ (test6_values[p]?).map bucket = (test6_values[q]?).map bucket
    ∧ (test6_values[p]?).map (fun x => x / 2 ^ 16)
        ≠ (test6_values[q]?).map (fun x => x / 2 ^ 16) := by
  have bp : bucket (p * 1000000) = 0 := bucket_eq_zero (by omega)
  have bq : bucket (q * 1000000) = 0 := bucket_eq_zero (by omega)
  rw [test6_getElem? hp, test6_getElem? hq]
  refine ⟨rfl, ?_, ?_, ?_⟩
  · rw [Option.map_some', bp]
  · rw [Option.map_some', Option.map_some', bp, bq]
  · rw [Option.map_some', Option.map_some']
    intro h
    have := Option.some.inj h
    omega

/-- Witness of the amended C8 at positions 0 and 99. -/
theorem C8_test6_single_bucket_witness :
    test6_values[0]? = some (0 * 1000000)
    ∧ (test6_values[0]?).map bucket = some 0
    ∧ (test6_values[0]?).map bucket = (test6_values[99]?).map bucket
    ∧ (test6_values[0]?).map (fun x => x / 2 ^ 16)
        ≠ (test6_values[99]?).map (fun x => x / 2 ^ 16) :=
  C8_test6_single_bucket 0 99 (by decide) (by decide) (by decide)

/-! ### Distinctness of the elements of the twelve vectors -/

theorem nodup_map_range {f : Nat → Nat} (n : Nat)
    (h : ∀ i j : Nat, i < n → j < n → f i = f j → i = j) :
    ((List.range n).map f).Nodup :=
  List.Nodup.map_on
    (fun i hi j hj e => h i j (List.mem_range.mp hi) (List.mem_range.mp hj) e)
    (List.nodup_range n)

theorem test5_nodup : test5_values.Nodup := by
  rw [test5_values_eq]
  exact nodup_map_range _ (fun i j _ _ h => by omega)

theorem test6_nodup : test6_values.Nodup := by
  rw [test6_values_eq]
  exact nodup_map_range _ (fun i j _ _ h => by omega)

theorem test7_nodup : test7_values.Nodup := by
  rw [test7_values_eq]
  refine List.Nodup.append (List.nodup_range 1000)
    (nodup_map_range _ (fun i j _ _ h => by omega)) ?_
  intro x hx hx'
  have h1 : x < 1000 := List.mem_range.mp hx
  obtain ⟨i, _, rfl⟩ := List.mem_map.mp hx'
  omega

theorem test8_nodup : test8_values.Nodup := by
  rw [test8_values_eq]
  exact nodup_map_range _ (fun i j _ _ h => by omega)

theorem test12_nodup : test12_values.Nodup := by
  rw [test12_values_eq]
  exact nodup_map_range _ (fun i j _ _ h => Nat.pow_right_injective (le_refl 2) h)

theorem test9_nodup : test9_values.Nodup := by
  rw [test9_values_eq]
  exact nodup_map_range _ (fun i j _ _ h => by omega)

theorem main_tests_values :
    main_tests.map TestCase.values
      = [test1_values, test2_values, test3_values, test4_values, test5_values, test6_values,
         test7_values, test8_values, test9_values, test10_values, test11_values,
         test12_values] := by
  simp only [main_tests, List.map_cons, List.map_nil]

theorem main_tests_nodup : ∀ t ∈ main_tests, t.values.Nodup := by
  intro t ht
  have h := List.mem_map_of_mem TestCase.values ht
  rw [main_tests_values] at h
  simp only [List.mem_cons, List.mem_singleton, List.not_mem_nil, or_false] at h
  rcases h with h | h | h | h | h | h | h | h | h | h | h | h <;> rw [h]
  · exact List.nodup_nil
  · exact List.nodup_singleton 42
  · rw [test3_values_eq]; exact List.nodup_range 100
  · rw [test4_values_eq]; exact List.nodup_range 10000
  · exact test5_nodup
  · exact test6_nodup
  · exact test7_nodup
  · exact test8_nodup
  · exact test9_nodup
  · exact (show test10_values = test4_values from rfl) ▸ (test4_values_eq ▸ List.nodup_range 10000)
  · exact test11_nodup
  · exact test12_nodup

/-- C10: the driver builds twelve test vectors, and each of them is
duplicate-free, so the element count reported by `compare_size` as `Elements`
is the number of distinct values of the vector. -/
theorem C10_test_vectors_duplicate_free (test_roaring_v1 test_roaring_v2 : Measure)
    (values : List Nat) (description : String) (portable : Bool)
    (ht : (⟨values, description, portable⟩ : TestCase) ∈ main_tests) :
    main_tests.length = 12
    ∧ values.Nodup
    ∧ (compare_size test_roaring_v1 test_roaring_v2 values description portable).1.elements
        = values.toFinset.card := by
  have h : values.Nodup := main_tests_nodup _ ht
  refine ⟨rfl, h, ?_⟩
  rw [List.toFinset_card_of_nodup h]
  rfl

/-- Witness of C10 at the pseudo-random vector of Test 11, measured by two
functions that return 8 and 16. -/
theorem C10_test_vectors_duplicate_free_witness :
    main_tests.length = 12
    ∧ test11_values.Nodup
    ∧ (compare_size (fun _ _ _ => 8) (fun _ _ _ => 16) test11_values
        "Test 11: Pseudo-random Pattern" true).1.elements = test11_values.toFinset.card :=
  C10_test_vectors_duplicate_free (fun _ _ _ => 8) (fun _ _ _ => 16)
    test11_values "Test 11: Pseudo-random Pattern" true (by simp [main_tests])

/-! ## The report of `compare_size` -/

/-- C7: for every vector and every portable flag, `compare_size` calls the
measurement function of version 1 and then that of version 2, each exactly
once, both with the same value sequence, with the length of the vector as
count and with the same portable flag; the two sizes it reports are the values
the two calls return. -/
theorem C7_compare_size_calls (test_roaring_v1 test_roaring_v2 : Measure)
    (values : List Nat) (description : String) (portable : Bool) :
    (compare_size test_roaring_v1 test_roaring_v2 values description portable).2
        = [⟨Library.v1, values, values.length, portable⟩,
           ⟨Library.v2, values, values.length, portable⟩]
    ∧ (compare_size test_roaring_v1 test_roaring_v2 values description portable).1.v1_size
        = test_roaring_v1 values values.length portable
    ∧ (compare_size test_roaring_v1 test_roaring_v2 values description portable).1.v2_size
        = test_roaring_v2 values values.length portable :=
  ⟨rfl, rfl, rfl⟩

/-! ## Rounding to binary64 -/

theorem roundHalfEven_intCast (z : ℤ) : roundHalfEven (z : ℚ) = z := by
  unfold roundHalfEven
  rw [Int.floor_intCast, sub_self, if_pos (by norm_num)]

theorem roundHalfEven_bounds (q : ℚ) : ⌊q⌋ ≤ roundHalfEven q ∧ roundHalfEven q ≤ ⌊q⌋ + 1 := by
  unfold roundHalfEven
  split_ifs <;> omega

theorem roundHalfEven_mono {x y : ℚ} (h : x ≤ y) : roundHalfEven x ≤ roundHalfEven y := by
  have hfl : ⌊x⌋ ≤ ⌊y⌋ := Int.floor_le_floor h
  rcases lt_or_eq_of_le hfl with hlt | heq
  · have h1 := (roundHalfEven_bounds x).2
    have h2 := (roundHalfEven_bounds y).1
    omega
  · unfold roundHalfEven
    rw [heq]
    split_ifs <;> first | omega | (exfalso; linarith)

theorem le_roundHalfEven {z : ℤ} {x : ℚ} (h : (z : ℚ) ≤ x) : z ≤ roundHalfEven x := by
  have := roundHalfEven_mono h
  rwa [roundHalfEven_intCast] at this

theorem roundHalfEven_le {z : ℤ} {x : ℚ} (h : x ≤ (z : ℚ)) : roundHalfEven x ≤ z := by
  have := roundHalfEven_mono h
  rwa [roundHalfEven_intCast] at this

theorem exponentUp_spec : ∀ (fuel : Nat) (q : ℚ), 1 ≤ q → q < 2 ^ ((fuel : ℤ) + 1) →
    (2 : ℚ) ^ exponentUp fuel q ≤ q ∧ q < 2 ^ (exponentUp fuel q + 1)
  | 0, q, h1, h2 => by
    simp only [exponentUp]
    norm_num at h2 ⊢
    exact ⟨h1, h2⟩
  | fuel + 1, q, h1, h2 => by
    simp only [exponentUp]
    split_ifs with hq
    · norm_num
      exact ⟨h1, hq⟩
    · have hq' : 2 ≤ q := not_lt.mp hq
      have h3 : q / 2 < 2 ^ ((fuel : ℤ) + 1) := by
        rw [Nat.cast_succ, zpow_add_one₀ (by norm_num : (2 : ℚ) ≠ 0)] at h2
        linarith
      obtain ⟨ih1, ih2⟩ := exponentUp_spec fuel (q / 2) (by linarith) h3
      have e1 := zpow_add_one₀ (by norm_num : (2 : ℚ) ≠ 0) (exponentUp fuel (q / 2))
      have e2 := zpow_add_one₀ (by norm_num : (2 : ℚ) ≠ 0) (exponentUp fuel (q / 2) + 1)
      rw [e2, e1]
      rw [e1] at ih2
      constructor <;> linarith

theorem exponentDown_of_one_le (fuel : Nat) {q : ℚ} (h : 1 ≤ q) : exponentDown fuel q = 0 := by
  cases fuel with
  | zero => rfl
  | succ n => simp only [exponentDown, if_pos h]

theorem exponentDown_spec : ∀ (fuel : Nat) (q : ℚ), q < 1 → 2 ^ (-(fuel : ℤ)) ≤ q →
    (2 : ℚ) ^ exponentDown fuel q ≤ q ∧ q < 2 ^ (exponentDown fuel q + 1)
  | 0, q, h1, h2 => by
    norm_num at h2
    linarith
  | fuel + 1, q, h1, h2 => by
    simp only [exponentDown, if_neg (not_le.mpr h1)]
    rcases le_or_lt 1 (q * 2) with hq | hq
    · rw [exponentDown_of_one_le fuel hq]
      norm_num
      constructor <;> linarith
    · have h3 : (2 : ℚ) ^ (-(fuel : ℤ)) ≤ q * 2 := by
        have e : -((fuel : ℤ)) = -((fuel + 1 : ℕ) : ℤ) + 1 := by push_cast; ring
        rw [e, zpow_add_one₀ (by norm_num : (2 : ℚ) ≠ 0)]
        linarith
      obtain ⟨ih1, ih2⟩ := exponentDown_spec fuel (q * 2) hq h3
      rw [zpow_add_one₀ (by norm_num : (2 : ℚ) ≠ 0)] at ih2
      rw [sub_add_cancel, zpow_sub_one₀ (by norm_num : (2 : ℚ) ≠ 0)]
      constructor <;> linarith

/-- Within the normal range of binary64, `binade q` is the exponent of the
leading bit of `q`. -/
theorem binade_spec {q : ℚ} (h1 : 2 ^ (-1022 : ℤ) ≤ q) (h2 : q < 2 ^ (1024 : ℤ)) :
    (2 : ℚ) ^ binade q ≤ q ∧ q < 2 ^ (binade q + 1) := by
  unfold binade
  split_ifs with h
  · have e : ((1023 : ℕ) : ℤ) + 1 = 1024 := by norm_num
    exact exponentUp_spec 1023 q h (by rw [e]; exact h2)
  · have e : -((1022 : ℕ) : ℤ) = -1022 := by norm_num
    exact exponentDown_spec 1022 q (not_le.mp h) (by rw [e]; exact h1)

theorem two_zpow_pos (e : ℤ) : (0 : ℚ) < 2 ^ e := zpow_pos (by norm_num) e

theorem two_zpow_mul (a b c : ℤ) (h : a + b = c) : (2 : ℚ) ^ a * 2 ^ b = 2 ^ c := by
  rw [← zpow_add₀ (by norm_num : (2 : ℚ) ≠ 0), h]

/-- Within the normal range, rounding keeps a magnitude in its binade (the
upper end included). -/
theorem roundMagnitude_bounds {q : ℚ} (h1 : 2 ^ (-1022 : ℤ) ≤ q) (h2 : q < 2 ^ (1024 : ℤ)) :
    (2 : ℚ) ^ binade q ≤ roundMagnitude q ∧ roundMagnitude q ≤ 2 ^ (binade q + 1) := by
  obtain ⟨s1, s2⟩ := binade_spec h1 h2
  have hp : (0 : ℚ) < 2 ^ (52 - binade q) := two_zpow_pos _
  have hp' : (0 : ℚ) < 2 ^ (binade q - 52) := two_zpow_pos _
  have c52 : (((2 : ℤ) ^ 52 : ℤ) : ℚ) = 2 ^ (52 : ℤ) := by norm_num
  have c53 : (((2 : ℤ) ^ 53 : ℤ) : ℚ) = 2 ^ (53 : ℤ) := by norm_num
  have m1 : (((2 : ℤ) ^ 52 : ℤ) : ℚ) ≤ q * 2 ^ (52 - binade q) := by
    rw [c52, ← two_zpow_mul (binade q) (52 - binade q) 52 (by ring)]
    exact mul_le_mul_of_nonneg_right s1 hp.le
  have m2 : q * 2 ^ (52 - binade q) ≤ (((2 : ℤ) ^ 53 : ℤ) : ℚ) := by
    rw [c53, ← two_zpow_mul (binade q + 1) (52 - binade q) 53 (by ring)]
    exact mul_le_mul_of_nonneg_right s2.le hp.le
  have r1 : (((2 : ℤ) ^ 52 : ℤ) : ℚ) ≤ (roundHalfEven (q * 2 ^ (52 - binade q)) : ℚ) :=
    Int.cast_le.mpr (le_roundHalfEven m1)
  have r2 : (roundHalfEven (q * 2 ^ (52 - binade q)) : ℚ) ≤ (((2 : ℤ) ^ 53 : ℤ) : ℚ) :=
    Int.cast_le.mpr (roundHalfEven_le m2)
  unfold roundMagnitude
  constructor
  · rw [← two_zpow_mul 52 (binade q - 52) (binade q) (by ring), ← c52]
    exact mul_le_mul_of_nonneg_right r1 hp'.le
  · rw [← two_zpow_mul 53 (binade q - 52) (binade q + 1) (by ring), ← c53]
    exact mul_le_mul_of_nonneg_right r2 hp'.le

/-- Rounding is monotone on the magnitudes of the normal range. -/
theorem roundMagnitude_mono {x y : ℚ} (hx : 2 ^ (-1022 : ℤ) ≤ x) (hxy : x ≤ y)
    (hy : y < 2 ^ (1024 : ℤ)) : roundMagnitude x ≤ roundMagnitude y := by
  have hx' : x < 2 ^ (1024 : ℤ) := lt_of_le_of_lt hxy hy
  have hy' : (2 : ℚ) ^ (-1022 : ℤ) ≤ y := le_trans hx hxy
  have sx := binade_spec hx hx'
  have sy := binade_spec hy' hy
  have hle : binade x ≤ binade y := by
    have h : (2 : ℚ) ^ binade x < 2 ^ (binade y + 1) :=
      lt_of_le_of_lt sx.1 (lt_of_le_of_lt hxy sy.2)
    have := (zpow_lt_zpow_iff_right₀ (by norm_num : (1 : ℚ) < 2)).mp h
    omega
  rcases lt_or_eq_of_le hle with hlt | heq
  · calc roundMagnitude x ≤ 2 ^ (binade x + 1) := (roundMagnitude_bounds hx hx').2
      _ ≤ 2 ^ binade y := zpow_le_zpow_right₀ (by norm_num) (by omega)
      _ ≤ roundMagnitude y := (roundMagnitude_bounds hy' hy).1
  · unfold roundMagnitude
    rw [heq]
    apply mul_le_mul_of_nonneg_right _ (two_zpow_pos _).le
    exact Int.cast_le.mpr
      (roundHalfEven_mono (mul_le_mul_of_nonneg_right hxy (two_zpow_pos _).le))

theorem normal_range_of_bounds {x : ℚ} (h1 : 2 ^ (-64 : ℤ) ≤ x) (h2 : x ≤ 2 ^ (64 : ℤ)) :
    (2 : ℚ) ^ (-1022 : ℤ) ≤ x ∧ x < 2 ^ (1024 : ℤ) :=
  ⟨le_trans (zpow_le_zpow_right₀ (by norm_num) (by norm_num)) h1,
   lt_of_le_of_lt h2 (zpow_lt_zpow_right₀ (by norm_num) (by norm_num))⟩

/-- Monotonicity of rounding between `2 ^ (-64)` and `2 ^ 64`. -/
theorem roundMagnitude_le {x y : ℚ} (hx : 2 ^ (-64 : ℤ) ≤ x) (hxy : x ≤ y)
    (hy : y ≤ 2 ^ (64 : ℤ)) : roundMagnitude x ≤ roundMagnitude y :=
  roundMagnitude_mono (normal_range_of_bounds hx (le_trans hxy hy)).1 hxy
    (normal_range_of_bounds (le_trans hx hxy) hy).2

theorem roundDouble_of_nonneg {q : ℚ} (h : 0 ≤ q) : roundDouble q = roundMagnitude q := by
  unfold roundDouble
  rw [if_neg (not_lt.mpr h)]

theorem roundDouble_of_neg {q : ℚ} (h : q < 0) : roundDouble q = -roundMagnitude (-q) := by
  unfold roundDouble
  rw [if_pos h]

theorem roundMagnitude_zero : roundMagnitude 0 = 0 := by
  unfold roundMagnitude
  rw [zero_mul]
  have h : roundHalfEven 0 = 0 := by simpa using roundHalfEven_intCast 0
  rw [h, Int.cast_zero, zero_mul]

theorem toDouble_exact_lt {n : Nat} (h : n < 2 ^ 53) : toDouble n = (n : ℚ) := by
  unfold toDouble
  rw [roundDouble_of_nonneg (Nat.cast_nonneg n)]
  rcases Nat.eq_zero_or_pos n with h0 | hpos
  · rw [h0, Nat.cast_zero, roundMagnitude_zero]
  have hn1 : (1 : ℚ) ≤ n := by exact_mod_cast hpos
  have hn2 : (n : ℚ) < 2 ^ (53 : ℤ) := by
    have h' : (n : ℚ) < ((2 ^ 53 : ℕ) : ℚ) := Nat.cast_lt.mpr h
    have e : (((2 ^ 53 : ℕ) : ℚ)) = 2 ^ (53 : ℤ) := by norm_num
    rwa [e] at h'
  have hlo : (2 : ℚ) ^ (-1022 : ℤ) ≤ n :=
    le_trans (le_trans (zpow_le_zpow_right₀ (by norm_num) (by norm_num : (-1022 : ℤ) ≤ 0))
      (by norm_num)) hn1
  have hhi : (n : ℚ) < 2 ^ (1024 : ℤ) :=
    lt_trans hn2 (zpow_lt_zpow_right₀ (by norm_num) (by norm_num))
  obtain ⟨s1, s2⟩ := binade_spec hlo hhi
  have e_le : binade (n : ℚ) ≤ 52 := by
    have := (zpow_lt_zpow_iff_right₀ (by norm_num : (1 : ℚ) < 2)).mp (lt_of_le_of_lt s1 hn2)
    omega
  have hk : (2 : ℚ) ^ (52 - binade (n : ℚ))
      = (((2 : ℤ) ^ (52 - binade (n : ℚ)).toNat : ℤ) : ℚ) := by
    rw [Int.cast_pow, ← zpow_natCast, Int.toNat_of_nonneg (by omega)]
    norm_num
  have hm : (n : ℚ) * 2 ^ (52 - binade (n : ℚ))
      = (((n : ℤ) * (2 : ℤ) ^ (52 - binade (n : ℚ)).toNat : ℤ) : ℚ) := by
    rw [hk]; push_cast; rfl
  unfold roundMagnitude
  rw [hm, roundHalfEven_intCast, ← hm, mul_assoc,
    two_zpow_mul (52 - binade (n : ℚ)) (binade (n : ℚ) - 52) 0 (by ring), zpow_zero, mul_one]

/-! ### The percentage of two sizes that differ by one -/

theorem toDouble_two_pow_53 : toDouble 9007199254740992 = 9007199254740992 := by decide!

/-- Natural numbers up to `2 ^ 53` are binary64 values: converting them is
exact. -/
theorem toDouble_exact {n : Nat} (h : n ≤ 2 ^ 53) : toDouble n = (n : ℚ) := by
  rcases Nat.lt_or_eq_of_le h with hlt | heq
  · exact toDouble_exact_lt hlt
  · rw [heq]
    exact toDouble_two_pow_53.trans (by norm_num)

theorem roundMagnitude_at_up1 :
    roundMagnitude (9007199254740992 / 9007199254740991)
      = 4503599627370497 / 4503599627370496 := by decide!

theorem roundMagnitude_at_up2 :
    roundMagnitude (4503599627370497 / 4503599627370496 * 100)
      = 3518437208883201 / 35184372088832 := by decide!

theorem roundMagnitude_at_up3 :
    roundMagnitude (1 / 35184372088832) = 1 / 35184372088832 := by decide!

theorem roundMagnitude_at_down1 :
    roundMagnitude (9007199254740991 / 9007199254740992)
      = 9007199254740991 / 9007199254740992 := by decide!

theorem roundMagnitude_at_down2 :
    roundMagnitude (9007199254740991 / 9007199254740992 * 100)
      = 7036874417766399 / 70368744177664 := by decide!

theorem roundMagnitude_at_down3 :
    roundMagnitude (1 / 70368744177664) = 1 / 70368744177664 := by decide!

theorem roundMagnitude_two : roundMagnitude 2 = 2 := by decide!

theorem roundMagnitude_half : roundMagnitude (1 / 2) = 1 / 2 := by decide!

theorem roundMagnitude_fifty : roundMagnitude 50 = 50 := by decide!

theorem roundMagnitude_two_hundred : roundMagnitude 200 = 200 := by decide!

/-- When the second size is one more than the first, both at most `2 ^ 53` and
the first not zero, the percentage is at least `2 ^ (-45)`. -/
theorem percentage_succ_pos {a : Nat} (h0 : 0 < a) (h : a + 1 ≤ 2 ^ 53) :
    1 / 35184372088832 ≤ (percentage a (a + 1)).value := by
  have ha : (1 : ℚ) ≤ a := by exact_mod_cast h0
  have ha' : (a : ℚ) ≤ 9007199254740991 := by
    have : a ≤ 9007199254740991 := by omega
    exact_mod_cast this
  have hapos : (0 : ℚ) < a := by linarith
  unfold percentage
  rw [if_pos h0]
  show _ ≤ fsub (fmul (fdiv (toDouble (a + 1)) (toDouble a)) 100) 100
  rw [toDouble_exact h, toDouble_exact (show a ≤ 2 ^ 53 by omega)]
  have r1 : (9007199254740992 / 9007199254740991 : ℚ) ≤ ((a + 1 : ℕ) : ℚ) / a := by
    rw [div_le_div_iff₀ (by norm_num) hapos]
    push_cast
    linarith
  have r2 : ((a + 1 : ℕ) : ℚ) / a ≤ 2 := by
    rw [div_le_iff₀ hapos]
    push_cast
    linarith
  have q1lo : (4503599627370497 / 4503599627370496 : ℚ) ≤ fdiv ((a + 1 : ℕ) : ℚ) a := by
    unfold fdiv
    rw [roundDouble_of_nonneg (le_trans (by norm_num) r1), ← roundMagnitude_at_up1]
    exact roundMagnitude_le (by norm_num) r1 (le_trans r2 (by norm_num))
  have q1hi : fdiv ((a + 1 : ℕ) : ℚ) a ≤ 2 := by
    unfold fdiv
    rw [roundDouble_of_nonneg (le_trans (by norm_num) r1)]
    calc roundMagnitude (((a + 1 : ℕ) : ℚ) / a) ≤ roundMagnitude 2 :=
          roundMagnitude_le (le_trans (by norm_num) r1) r2 (by norm_num)
      _ = 2 := roundMagnitude_two
  generalize fdiv ((a + 1 : ℕ) : ℚ) a = q1 at q1lo q1hi
  have q2lo : (3518437208883201 / 35184372088832 : ℚ) ≤ fmul q1 100 := by
    unfold fmul
    rw [roundDouble_of_nonneg (by linarith), ← roundMagnitude_at_up2]
    exact roundMagnitude_le (by norm_num) (by linarith) (by norm_num; linarith)
  have q2hi : fmul q1 100 ≤ 200 := by
    unfold fmul
    rw [roundDouble_of_nonneg (by linarith)]
    calc roundMagnitude (q1 * 100) ≤ roundMagnitude 200 :=
          roundMagnitude_le (by norm_num; linarith) (by linarith) (by norm_num)
      _ = 200 := roundMagnitude_two_hundred
  generalize fmul q1 100 = q2 at q2lo q2hi
  unfold fsub
  rw [roundDouble_of_nonneg (by linarith), ← roundMagnitude_at_up3]
  exact roundMagnitude_le (by norm_num) (by linarith) (by norm_num; linarith)

theorem percentage_one_zero : (percentage 1 0).value = -100 := by decide!

/-- When the second size is one less than the first, both at most `2 ^ 53`, the
percentage is at most `-2 ^ (-46)`. -/
theorem percentage_pred_neg {b : Nat} (h : b + 1 ≤ 2 ^ 53) :
    (percentage (b + 1) b).value ≤ -(1 / 70368744177664) := by
  rcases Nat.eq_zero_or_pos b with hb0 | hbpos
  · rw [hb0, Nat.zero_add, percentage_one_zero]
    norm_num
  have hb : (1 : ℚ) ≤ b := by exact_mod_cast hbpos
  have hb' : (b : ℚ) ≤ 9007199254740991 := by
    have : b ≤ 9007199254740991 := by omega
    exact_mod_cast this
  have hapos : (0 : ℚ) < ((b + 1 : ℕ) : ℚ) := by push_cast; linarith
  unfold percentage
  rw [if_pos (Nat.succ_pos b)]
  show fsub (fmul (fdiv (toDouble b) (toDouble (b + 1))) 100) 100 ≤ _
  rw [toDouble_exact h, toDouble_exact (show b ≤ 2 ^ 53 by omega)]
  have r1 : (b : ℚ) / ((b + 1 : ℕ) : ℚ) ≤ 9007199254740991 / 9007199254740992 := by
    rw [div_le_div_iff₀ hapos (by norm_num)]
    push_cast
    linarith
  have r2 : (1 / 2 : ℚ) ≤ (b : ℚ) / ((b + 1 : ℕ) : ℚ) := by
    rw [div_le_div_iff₀ (by norm_num) hapos]
    push_cast
    linarith
  have q1hi : fdiv (b : ℚ) ((b + 1 : ℕ) : ℚ) ≤ 9007199254740991 / 9007199254740992 := by
    unfold fdiv
    rw [roundDouble_of_nonneg (le_trans (by norm_num) r2), ← roundMagnitude_at_down1]
    exact roundMagnitude_le (le_trans (by norm_num) r2) r1 (by norm_num)
  have q1lo : (1 / 2 : ℚ) ≤ fdiv (b : ℚ) ((b + 1 : ℕ) : ℚ) := by
    unfold fdiv
    rw [roundDouble_of_nonneg (le_trans (by norm_num) r2)]
    calc (1 / 2 : ℚ) = roundMagnitude (1 / 2) := roundMagnitude_half.symm
      _ ≤ roundMagnitude ((b : ℚ) / ((b + 1 : ℕ) : ℚ)) :=
          roundMagnitude_le (by norm_num) r2 (le_trans r1 (by norm_num))
  generalize fdiv (b : ℚ) ((b + 1 : ℕ) : ℚ) = q1 at q1lo q1hi
  have q2hi : fmul q1 100 ≤ 7036874417766399 / 70368744177664 := by
    unfold fmul
    rw [roundDouble_of_nonneg (by linarith), ← roundMagnitude_at_down2]
    exact roundMagnitude_le (by norm_num; linarith) (by linarith) (by norm_num)
  have q2lo : (50 : ℚ) ≤ fmul q1 100 := by
    unfold fmul
    rw [roundDouble_of_nonneg (by linarith)]
    calc (50 : ℚ) = roundMagnitude 50 := roundMagnitude_fifty.symm
      _ ≤ roundMagnitude (q1 * 100) :=
          roundMagnitude_le (by norm_num) (by linarith) (by norm_num; linarith)
  generalize fmul q1 100 = q2 at q2lo q2hi
  unfold fsub
  rw [roundDouble_of_neg (by linarith), neg_le_neg_iff, ← roundMagnitude_at_down3]
  exact roundMagnitude_le (by norm_num) (by linarith) (by norm_num; linarith)

/-- At `2 ^ 53` bytes the conversion to `double` no longer separates sizes that
differ by one: the percentage of `2 ^ 53` and `2 ^ 53 + 1` is zero. -/
theorem percentage_zero_at_two_pow_53 :
    (percentage 9007199254740992 9007199254740993).value = 0 := by decide!

/-! ## The derived fields of the report -/

/-- The fields of a report of `compare_size` in terms of the two sizes it
holds. -/
theorem compare_size_report {test_roaring_v1 test_roaring_v2 : Measure} {values : List Nat}
    {description : String} {portable : Bool} {r : Report} {log : List Call}
    (hr : compare_size test_roaring_v1 test_roaring_v2 values description portable = (r, log)) :
    r.v1_size = test_roaring_v1 values values.length portable
    ∧ r.v2_size = test_roaring_v2 values values.length portable
    ∧ r.elements = values.length
    ∧ r.difference = difference r.v1_size r.v2_size
    ∧ r.percentage = percentage r.v1_size r.v2_size
    ∧ r.verdict = verdict r.v1_size r.v2_size
    ∧ r.percentage_text = setprecision2 r.percentage.value := by
  have h := congrArg Prod.fst hr
  simp only at h
  subst h
  exact ⟨rfl, rfl, rfl, rfl, rfl, rfl, rfl⟩

theorem verdict_yes_iff (a b : Nat) : verdict a b = "✓ YES" ↔ a = b := by
  unfold verdict
  split_ifs with h
  · exact ⟨fun _ => h, fun _ => rfl⟩
  · exact ⟨fun e => absurd e (by decide), fun e => absurd e h⟩

theorem verdict_no_of_ne {a b : Nat} (h : a ≠ b) : verdict a b = "✗ NO" := by
  unfold verdict
  rw [if_neg h]

theorem toInt64_of_lt {x : Nat} (h : x < 2 ^ 63) : toInt64 x = (x : ℤ) := by
  unfold toInt64 u64
  rw [Nat.mod_eq_of_lt (show x < 2 ^ 64 by omega), if_pos h]

theorem toInt64_of_ge {x : Nat} (h1 : 2 ^ 63 ≤ x) (h2 : x < 2 ^ 64) :
    toInt64 x = (x : ℤ) - 2 ^ 64 := by
  unfold toInt64 u64
  rw [Nat.mod_eq_of_lt h2, if_neg (by omega)]

theorem subInt64_of_fits {x y : ℤ} (h1 : -(2 ^ 63) ≤ x - y) (h2 : x - y < 2 ^ 63) :
    subInt64 x y = some (x - y) := by
  unfold subInt64
  rw [if_pos ⟨h1, h2⟩]

theorem difference_same_half {a b : Nat}
    (h : (a < 2 ^ 63 ∧ b < 2 ^ 63) ∨ (2 ^ 63 ≤ a ∧ a < 2 ^ 64 ∧ 2 ^ 63 ≤ b ∧ b < 2 ^ 64)) :
    difference a b = some ((b : ℤ) - (a : ℤ)) := by
  unfold difference
  rcases h with ⟨ha, hb⟩ | ⟨ha, ha', hb, hb'⟩
  · rw [toInt64_of_lt ha, toInt64_of_lt hb, subInt64_of_fits (by omega) (by omega)]
  · rw [toInt64_of_ge ha ha', toInt64_of_ge hb hb', subInt64_of_fits (by omega) (by omega)]
    congr 1
    ring

/-- C6, as stated, fails: when the measurement functions return the sizes 0
and `2 ^ 63`, the reported difference is `-2 ^ 63`, not `2 ^ 63`. -/
theorem C6_difference_not_exact :
    ¬ (∀ (test_roaring_v1 test_roaring_v2 : Measure) (values : List Nat)
        (description : String) (portable : Bool) (r : Report) (log : List Call),
        compare_size test_roaring_v1 test_roaring_v2 values description portable = (r, log) →
        r.v1_size < 2 ^ 64 → r.v2_size < 2 ^ 64 →
        r.difference = some ((r.v2_size : ℤ) - (r.v1_size : ℤ))) := by
  intro h
  have h1 := h (fun _ _ _ => 0) (fun _ _ _ => 9223372036854775808) [] "" true _ _ rfl
    (by decide) (by decide)
  revert h1
  decide

/-- C6, amended: when the two sizes lie on the same side of `2 ^ 63` (both
below it, or both from it up to `2 ^ 64`), the reported difference is the
mathematical signed integer `size_b - size_a`. -/
theorem C6_difference_exact (test_roaring_v1 test_roaring_v2 : Measure) (values : List Nat)
    (description : String) (portable : Bool) (r : Report) (log : List Call)
    (hr : compare_size test_roaring_v1 test_roaring_v2 values description portable = (r, log))
    (h : (r.v1_size < 2 ^ 63 ∧ r.v2_size < 2 ^ 63)
      ∨ (2 ^ 63 ≤ r.v1_size ∧ r.v1_size < 2 ^ 64 ∧ 2 ^ 63 ≤ r.v2_size ∧ r.v2_size < 2 ^ 64)) :
    r.difference = some ((r.v2_size : ℤ) - (r.v1_size : ℤ)) := by
  rw [(compare_size_report hr).2.2.2.1]
  exact difference_same_half h

/-- Witness of the amended C6: the sizes 16 and 8 give the difference `-8`. -/
theorem C6_difference_exact_witness :
    (compare_size (fun _ _ _ => 16) (fun _ _ _ => 8) [42] "" true).1.difference
      = some (((8 : ℕ) : ℤ) - ((16 : ℕ) : ℤ)) :=
  C6_difference_exact (fun _ _ _ => 16) (fun _ _ _ => 8) [42] "" true _ _ rfl
    (Or.inl ⟨by decide, by decide⟩)

/-- C4: whenever the first measurement returns 0, the reported percentage is
exactly 0, whatever the second size, and the operand with the division is not
evaluated; the division is evaluated exactly when the first size is
positive. -/
theorem C4_zero_baseline (test_roaring_v1 test_roaring_v2 : Measure) (values : List Nat)
    (description : String) (portable : Bool) (r : Report) (log : List Call)
    (hr : compare_size test_roaring_v1 test_roaring_v2 values description portable = (r, log)) :
    (r.v1_size = 0 → r.percentage.value = 0 ∧ r.percentage.divided = false)
    ∧ (r.percentage.divided = true ↔ 0 < r.v1_size) := by
  rw [(compare_size_report hr).2.2.2.2.1]
  unfold percentage
  constructor
  · intro h0
    rw [if_neg (by omega)]
    exact ⟨rfl, rfl⟩
  · split_ifs with h
    · exact ⟨fun _ => h, fun _ => rfl⟩
    · exact ⟨fun e => absurd e (by decide), fun e => absurd e h⟩

/-- Witness of C4: with the sizes 0 and 5 the percentage is 0 and no division
is evaluated. -/
theorem C4_zero_baseline_witness :
    (compare_size (fun _ _ _ => 0) (fun _ _ _ => 5) [42] "" true).1.percentage.value = 0
    ∧ (compare_size (fun _ _ _ => 0) (fun _ _ _ => 5) [42] "" true).1.percentage.divided
        = false :=
  (C4_zero_baseline (fun _ _ _ => 0) (fun _ _ _ => 5) [42] "" true _ _ rfl).1 rfl

/-- C3, as stated, fails: when the measurement functions return the sizes 8
and 16 for the empty vector of Test 1, the reported percentage is 100. -/
theorem C3_empty_vector_percentage_not_zero :
    ¬ (∀ (test_roaring_v1 test_roaring_v2 : Measure) (r : Report) (log : List Call),
        compare_size test_roaring_v1 test_roaring_v2 test1_values "Test 1: Empty Bitmap" true
          = (r, log) →
        r.percentage.value = 0) := by
  intro h
  have h1 := h (fun _ _ _ => 8) (fun _ _ _ => 16) _ _ rfl
  have h2 : (percentage 8 16).value = 100 := by decide!
  have h3 : (percentage 8 16).value = 0 := h1
  rw [h2] at h3
  exact absurd h3 (by norm_num)

/-- C3, amended: for the empty vector of Test 1 (element count 0, portable
flag set), the reported percentage is exactly 0 whenever the first measurement
returns 0, whatever the second measurement returns. -/
theorem C3_empty_vector_zero_baseline (test_roaring_v1 test_roaring_v2 : Measure)
    (r : Report) (log : List Call)
    (hr : compare_size test_roaring_v1 test_roaring_v2 test1_values "Test 1: Empty Bitmap" true
      = (r, log))
    (h0 : r.v1_size = 0) :
    r.elements = 0 ∧ r.portable = "Yes" ∧ r.percentage.value = 0 := by
  have hp : r.portable = "Yes" := by
    have h := congrArg Prod.fst hr
    simp only at h
    subst h
    rfl
  refine ⟨(compare_size_report hr).2.2.1, hp, ?_⟩
  rw [(compare_size_report hr).2.2.2.2.1]
  unfold percentage
  rw [if_neg (by omega)]

/-- Witness of the amended C3: with the sizes 0 and 8 for the empty vector, the
percentage is 0. -/
theorem C3_empty_vector_zero_baseline_witness :
    (compare_size (fun _ _ _ => 0) (fun _ _ _ => 8) test1_values
        "Test 1: Empty Bitmap" true).1.percentage.value = 0 :=
  (C3_empty_vector_zero_baseline (fun _ _ _ => 0) (fun _ _ _ => 8) _ _ rfl rfl).2.2

/-! ## Monotonicity of rounding -/

theorem exponentDown_small : ∀ (fuel : Nat) (q : ℚ), q * 2 ^ (fuel : ℤ) < 1 →
    exponentDown fuel q = -(fuel : ℤ)
  | 0, _, _ => by simp [exponentDown]
  | fuel + 1, q, h => by
    have e : (2 : ℚ) ^ ((fuel + 1 : ℕ) : ℤ) = 2 ^ (fuel : ℤ) * 2 := by
      rw [Nat.cast_succ, zpow_add_one₀ (by norm_num : (2 : ℚ) ≠ 0)]
    rw [e] at h
    have hpow : (1 : ℚ) ≤ 2 ^ (fuel : ℤ) * 2 := by
      have : (1 : ℚ) ≤ 2 ^ (fuel : ℤ) := by
        have := zpow_le_zpow_right₀ (by norm_num : (1 : ℚ) ≤ 2) (Int.natCast_nonneg fuel)
        simpa using this
      linarith
    have hq : ¬ (1 ≤ q) := by
      intro h1
      have : 1 * 1 ≤ q * (2 ^ (fuel : ℤ) * 2) :=
        mul_le_mul h1 hpow (by norm_num) (by linarith)
      linarith
    simp only [exponentDown, if_neg hq]
    rw [exponentDown_small fuel (q * 2) (by linarith)]
    push_cast
    ring

/-- Below the normal range the exponent stays at `-1022`. -/
theorem binade_small {q : ℚ} (h : q < 2 ^ (-1022 : ℤ)) : binade q = -1022 := by
  have h1 : q * 2 ^ ((1022 : ℕ) : ℤ) < 1 := by
    have hp : (0 : ℚ) < 2 ^ ((1022 : ℕ) : ℤ) := two_zpow_pos _
    have e : (2 : ℚ) ^ (-1022 : ℤ) * 2 ^ ((1022 : ℕ) : ℤ) = 2 ^ (0 : ℤ) :=
      two_zpow_mul _ _ _ (by norm_num)
    have := mul_lt_mul_of_pos_right h hp
    rw [e, zpow_zero] at this
    exact this
  have hlt : q < 1 := by
    have : (2 : ℚ) ^ (-1022 : ℤ) ≤ 2 ^ (0 : ℤ) :=
      zpow_le_zpow_right₀ (by norm_num) (by norm_num)
    rw [zpow_zero] at this
    linarith
  unfold binade
  rw [if_neg (not_le.mpr hlt), exponentDown_small 1022 q h1]
  norm_num

theorem roundMagnitude_nonneg {q : ℚ} (h : 0 ≤ q) : 0 ≤ roundMagnitude q := by
  unfold roundMagnitude
  apply mul_nonneg _ (two_zpow_pos _).le
  have h1 : ((0 : ℤ) : ℚ) ≤ q * 2 ^ (52 - binade q) := by
    rw [Int.cast_zero]
    exact mul_nonneg h (two_zpow_pos _).le
  exact_mod_cast le_roundHalfEven h1

/-- Rounding is monotone on all magnitudes below `2 ^ 1024`, the subnormal ones
included. -/
theorem roundMagnitude_mono_all {x y : ℚ} (hxy : x ≤ y)
    (hy : y < 2 ^ (1024 : ℤ)) : roundMagnitude x ≤ roundMagnitude y := by
  rcases le_or_lt ((2 : ℚ) ^ (-1022 : ℤ)) x with hxn | hxs
  · exact roundMagnitude_mono hxn hxy hy
  have bx := binade_small hxs
  rcases le_or_lt ((2 : ℚ) ^ (-1022 : ℤ)) y with hyn | hys
  · have sy := binade_spec hyn hy
    have hby : -1022 ≤ binade y := by
      have h : (2 : ℚ) ^ (-1022 : ℤ) < 2 ^ (binade y + 1) := lt_of_le_of_lt hyn sy.2
      have := (zpow_lt_zpow_iff_right₀ (by norm_num : (1 : ℚ) < 2)).mp h
      omega
    have c52 : (((2 : ℤ) ^ 52 : ℤ) : ℚ) = 2 ^ (52 : ℤ) := by norm_num
    have m : x * 2 ^ (52 - binade x) ≤ (((2 : ℤ) ^ 52 : ℤ) : ℚ) := by
      rw [c52, bx, ← two_zpow_mul (-1022) (52 - -1022) 52 (by norm_num)]
      exact mul_le_mul_of_nonneg_right hxs.le (two_zpow_pos _).le
    have r : (roundHalfEven (x * 2 ^ (52 - binade x)) : ℚ) ≤ (((2 : ℤ) ^ 52 : ℤ) : ℚ) :=
      Int.cast_le.mpr (roundHalfEven_le m)
    calc roundMagnitude x
        ≤ (((2 : ℤ) ^ 52 : ℤ) : ℚ) * 2 ^ (binade x - 52) :=
          mul_le_mul_of_nonneg_right r (two_zpow_pos _).le
      _ = 2 ^ (-1022 : ℤ) := by rw [c52, bx]; exact two_zpow_mul _ _ _ (by norm_num)
      _ ≤ 2 ^ binade y := zpow_le_zpow_right₀ (by norm_num) hby
      _ ≤ roundMagnitude y := (roundMagnitude_bounds hyn hy).1
  · have by' := binade_small hys
    unfold roundMagnitude
    rw [bx, by']
    apply mul_le_mul_of_nonneg_right _ (two_zpow_pos _).le
    exact Int.cast_le.mpr
      (roundHalfEven_mono (mul_le_mul_of_nonneg_right hxy (two_zpow_pos _).le))

/-- Rounding to binary64 is monotone (between `-2 ^ 64` and `2 ^ 64`). -/
theorem roundDouble_mono {x y : ℚ} (hx : -(2 ^ (64 : ℤ)) ≤ x) (hxy : x ≤ y)
    (hy : y ≤ 2 ^ (64 : ℤ)) : roundDouble x ≤ roundDouble y := by
  have big : (2 : ℚ) ^ (64 : ℤ) < 2 ^ (1024 : ℤ) :=
    zpow_lt_zpow_right₀ (by norm_num) (by norm_num)
  rcases lt_or_le x 0 with hx0 | hx0
  · rcases lt_or_le y 0 with hy0 | hy0
    · rw [roundDouble_of_neg hx0, roundDouble_of_neg hy0, neg_le_neg_iff]
      exact roundMagnitude_mono_all (by linarith) (by linarith)
    · rw [roundDouble_of_neg hx0, roundDouble_of_nonneg hy0]
      have h1 := roundMagnitude_nonneg (show (0 : ℚ) ≤ -x by linarith)
      have h2 := roundMagnitude_nonneg hy0
      linarith
  · rw [roundDouble_of_nonneg hx0, roundDouble_of_nonneg (le_trans hx0 hxy)]
    exact roundMagnitude_mono_all hxy (by linarith)

/-! ## The percentage as a function of the ratio of the sizes -/

theorem roundDouble_zero : roundDouble 0 = 0 := by decide!

theorem roundDouble_two : roundDouble 2 = 2 := by decide!

theorem roundDouble_two_hundred : roundDouble 200 = 200 := by decide!

/-- The percentage computed from a ratio between 0 and 2 grows with the
ratio. -/
theorem percentage_of_ratio_mono {s t : ℚ} (h0 : 0 ≤ s) (hst : s ≤ t) (h2 : t ≤ 2) :
    fsub (fmul (roundDouble s) 100) 100 ≤ fsub (fmul (roundDouble t) 100) 100 := by
  have b64 : (200 : ℚ) ≤ 2 ^ (64 : ℤ) := by norm_num
  have q1 : roundDouble s ≤ roundDouble t :=
    roundDouble_mono (by linarith) hst (by linarith)
  have q1lo : 0 ≤ roundDouble s := by
    have := roundDouble_mono (show -(2 ^ (64 : ℤ)) ≤ (0 : ℚ) by linarith) h0 (by linarith)
    rwa [roundDouble_zero] at this
  have q1hi : roundDouble t ≤ 2 := by
    have := roundDouble_mono (show -(2 ^ (64 : ℤ)) ≤ t by linarith) h2 (by linarith)
    rwa [roundDouble_two] at this
  generalize roundDouble s = a at q1 q1lo
  generalize roundDouble t = b at q1 q1hi
  have q2 : fmul a 100 ≤ fmul b 100 :=
    roundDouble_mono (by linarith) (by linarith) (by linarith)
  have q2lo : 0 ≤ fmul a 100 := by
    have := roundDouble_mono (show -(2 ^ (64 : ℤ)) ≤ (0 : ℚ) by linarith)
      (show (0 : ℚ) ≤ a * 100 by linarith) (by linarith)
    rwa [roundDouble_zero] at this
  have q2hi : fmul b 100 ≤ 200 := by
    have := roundDouble_mono (show -(2 ^ (64 : ℤ)) ≤ b * 100 by linarith)
      (show b * 100 ≤ 200 by linarith) (by linarith)
    rwa [roundDouble_two_hundred] at this
  generalize fmul a 100 = c at q2 q2lo
  generalize fmul b 100 = d at q2 q2hi
  exact roundDouble_mono (by linarith) (by linarith) (by linarith)

/-- The percentage of two sizes up to `2 ^ 53`, the first positive, is computed
from their exact ratio. -/
theorem percentage_value_eq {a b : Nat} (h0 : 0 < a) (ha : a ≤ 2 ^ 53) (hb : b ≤ 2 ^ 53) :
    (percentage a b).value = fsub (fmul (roundDouble ((b : ℚ) / (a : ℚ))) 100) 100 := by
  unfold percentage
  rw [if_pos h0]
  show fsub (fmul (fdiv (toDouble b) (toDouble a)) 100) 100 = _
  rw [toDouble_exact ha, toDouble_exact hb]
  rfl

/-! ## The two-decimal text of the percentage -/

theorem hundredths_ne_zero {d x : ℚ} (hd : 1 ≤ roundHalfEven (d * 100)) (h : d ≤ |x|) :
    (setprecision2 x).hundredths ≠ 0 := by
  have h1 : roundHalfEven (d * 100) ≤ roundHalfEven (|x| * 100) :=
    roundHalfEven_mono (by linarith)
  show (roundHalfEven (|x| * 100)).toNat ≠ 0
  omega

theorem hundredths_eq_zero {d x : ℚ} (hd : roundHalfEven (d * 100) ≤ 0) (h : |x| ≤ d) :
    (setprecision2 x).hundredths = 0 := by
  have h1 : roundHalfEven (|x| * 100) ≤ roundHalfEven (d * 100) :=
    roundHalfEven_mono (by linarith)
  show (roundHalfEven (|x| * 100)).toNat = 0
  omega

theorem percentage_at_ratio_one : fsub (fmul (roundDouble 1) 100) 100 = 0 := by decide!

theorem percentage_at_20001_20000 :
    fsub (fmul (roundDouble (20001 / 20000)) 100) 100 = 351843720889 / 70368744177664 := by
  decide!

theorem percentage_at_20002_20001 :
    fsub (fmul (roundDouble (20002 / 20001)) 100) 100 = 351826129581 / 70368744177664 := by
  decide!

theorem percentage_at_19998_19999 :
    fsub (fmul (roundDouble (19998 / 19999)) 100) 100 = -175930656977 / 35184372088832 := by
  decide!

theorem percentage_at_19999_20000 :
    fsub (fmul (roundDouble (19999 / 20000)) 100) 100 = -43980465111 / 8796093022208 := by
  decide!

theorem hundredths_at_up_lo : 1 ≤ roundHalfEven (351843720889 / 70368744177664 * 100) := by
  decide!

theorem hundredths_at_up_hi : roundHalfEven (351826129581 / 70368744177664 * 100) ≤ 0 := by
  decide!

theorem hundredths_at_down_lo : 1 ≤ roundHalfEven (175930656977 / 35184372088832 * 100) := by
  decide!

theorem hundredths_at_down_hi : roundHalfEven (43980465111 / 8796093022208 * 100) ≤ 0 := by
  decide!

/-- When the second size is one more than the first (both up to `2 ^ 53`, the
first positive), the two-decimal text of the percentage shows a non-zero
number exactly when the first size is at most 20000. -/
theorem text_succ_ne_zero_iff {a : Nat} (h0 : 0 < a) (h : a + 1 ≤ 2 ^ 53) :
    (setprecision2 (percentage a (a + 1)).value).hundredths ≠ 0 ↔ a ≤ 20000 := by
  have ha : (1 : ℚ) ≤ a := by exact_mod_cast h0
  have hapos : (0 : ℚ) < a := by linarith
  rw [percentage_value_eq h0 (by omega) h]
  have hub : ((a + 1 : ℕ) : ℚ) / a ≤ 2 := by
    rw [div_le_iff₀ hapos]; push_cast; linarith
  have hlb : (1 : ℚ) ≤ ((a + 1 : ℕ) : ℚ) / a := by
    rw [le_div_iff₀ hapos]; push_cast; linarith
  constructor
  · intro hne
    by_contra hgt
    have hge : (20001 : ℚ) ≤ a := by
      have : 20001 ≤ a := by omega
      exact_mod_cast this
    have hr : ((a + 1 : ℕ) : ℚ) / a ≤ 20002 / 20001 := by
      rw [div_le_div_iff₀ hapos (by norm_num)]; push_cast; linarith
    have hhi := percentage_of_ratio_mono (by linarith) hr (by norm_num)
    have hlo := percentage_of_ratio_mono (by norm_num : (0 : ℚ) ≤ 1) hlb hub
    rw [percentage_at_20002_20001] at hhi
    rw [percentage_at_ratio_one] at hlo
    exact hne (hundredths_eq_zero hundredths_at_up_hi (by rw [abs_of_nonneg hlo]; exact hhi))
  · intro hle
    have hle' : (a : ℚ) ≤ 20000 := by exact_mod_cast hle
    have hr : (20001 / 20000 : ℚ) ≤ ((a + 1 : ℕ) : ℚ) / a := by
      rw [div_le_div_iff₀ (by norm_num) hapos]; push_cast; linarith
    have hlo := percentage_of_ratio_mono (by norm_num) hr hub
    rw [percentage_at_20001_20000] at hlo
    exact hundredths_ne_zero hundredths_at_up_lo (le_trans hlo (le_abs_self _))

/-- When the second size is one less than the first (both up to `2 ^ 53`), the
two-decimal text of the percentage shows a non-zero number exactly when the
first size is at most 19999. -/
theorem text_pred_ne_zero_iff {b : Nat} (h : b + 1 ≤ 2 ^ 53) :
    (setprecision2 (percentage (b + 1) b).value).hundredths ≠ 0 ↔ b + 1 ≤ 19999 := by
  have hb : (0 : ℚ) ≤ b := Nat.cast_nonneg b
  have hapos : (0 : ℚ) < ((b + 1 : ℕ) : ℚ) := by push_cast; linarith
  rw [percentage_value_eq (Nat.succ_pos b) h (by omega)]
  have hub : (b : ℚ) / ((b + 1 : ℕ) : ℚ) ≤ 1 := by
    rw [div_le_iff₀ hapos]; push_cast; linarith
  have hlb : (0 : ℚ) ≤ (b : ℚ) / ((b + 1 : ℕ) : ℚ) := div_nonneg hb hapos.le
  constructor
  · intro hne
    by_contra hgt
    have hge : (19999 : ℚ) ≤ b := by
      have : 19999 ≤ b := by omega
      exact_mod_cast this
    have hr : (19999 / 20000 : ℚ) ≤ (b : ℚ) / ((b + 1 : ℕ) : ℚ) := by
      rw [div_le_div_iff₀ (by norm_num) hapos]; push_cast; linarith
    have hlo := percentage_of_ratio_mono (by norm_num) hr (by linarith)
    have hhi := percentage_of_ratio_mono hlb hub (by norm_num)
    rw [percentage_at_19999_20000] at hlo
    rw [percentage_at_ratio_one] at hhi
    refine hne (hundredths_eq_zero hundredths_at_down_hi ?_)
    rw [abs_of_nonpos hhi]
    linarith
  · intro hle
    have hle' : (b : ℚ) ≤ 19998 := by
      have : b ≤ 19998 := by omega
      exact_mod_cast this
    have hr : (b : ℚ) / ((b + 1 : ℕ) : ℚ) ≤ 19998 / 19999 := by
      rw [div_le_div_iff₀ hapos (by norm_num)]; push_cast; linarith
    have hhi := percentage_of_ratio_mono hlb hr (by norm_num)
    rw [percentage_at_19998_19999] at hhi
    refine hundredths_ne_zero hundredths_at_down_lo ?_
    rw [abs_of_nonpos (by linarith)]
    linarith

theorem text_zero_at_20001 :
    (setprecision2 (percentage 20001 20002).value).hundredths = 0 := by decide!

theorem setprecision2_zero : setprecision2 0 = ⟨false, 0⟩ := by decide!

theorem difference_succ {a b : Nat} (h : b = a + 1) (h64 : b < 2 ^ 64) (hne : b ≠ 2 ^ 63) :
    difference a b = some 1 := by
  have hd : difference a b = some ((b : ℤ) - (a : ℤ)) := by
    apply difference_same_half
    omega
  rw [hd, h]
  congr 1
  push_cast
  ring

theorem difference_pred {a b : Nat} (h : a = b + 1) (h64 : a < 2 ^ 64) (hne : a ≠ 2 ^ 63) :
    difference a b = some (-1) := by
  have hd : difference a b = some ((b : ℤ) - (a : ℤ)) := by
    apply difference_same_half
    omega
  rw [hd, h]
  congr 1
  push_cast
  ring

/-- C1, as stated, fails: when the measurement functions return the sizes 0
and 1, which differ by exactly one byte, the percentage is zero; among positive
sizes, when they return 20001 and 20002, the percentage is written as `0.00`;
and when they return `2 ^ 53` and `2 ^ 53 + 1`, the value of the percentage
expression itself is zero. -/
theorem C1_one_byte_percentage_zero :
    ¬ (∀ (test_roaring_v1 test_roaring_v2 : Measure) (values : List Nat)
        (description : String) (portable : Bool) (r : Report) (log : List Call),
        compare_size test_roaring_v1 test_roaring_v2 values description portable = (r, log) →
        (r.v2_size = r.v1_size + 1 ∨ r.v1_size = r.v2_size + 1) →
        r.percentage.value ≠ 0)
    ∧ ¬ (∀ (test_roaring_v1 test_roaring_v2 : Measure) (values : List Nat)
        (description : String) (portable : Bool) (r : Report) (log : List Call),
        compare_size test_roaring_v1 test_roaring_v2 values description portable = (r, log) →
        (r.v2_size = r.v1_size + 1 ∨ r.v1_size = r.v2_size + 1) →
        0 < r.v1_size → r.v1_size < 2 ^ 64 → r.v2_size < 2 ^ 64 →
        r.percentage_text.hundredths ≠ 0)
    ∧ ¬ (∀ (test_roaring_v1 test_roaring_v2 : Measure) (values : List Nat)
        (description : String) (portable : Bool) (r : Report) (log : List Call),
        compare_size test_roaring_v1 test_roaring_v2 values description portable = (r, log) →
        (r.v2_size = r.v1_size + 1 ∨ r.v1_size = r.v2_size + 1) →
        0 < r.v1_size → r.v1_size < 2 ^ 64 → r.v2_size < 2 ^ 64 →
        r.percentage.value ≠ 0) := by
  refine ⟨?_, ?_, ?_⟩
  · intro h
    exact h (fun _ _ _ => 0) (fun _ _ _ => 1) [] "" true _ _ rfl (Or.inl rfl) rfl
  · intro h
    exact h (fun _ _ _ => 20001) (fun _ _ _ => 20002) [] "" true _ _ rfl
      (Or.inl rfl) (by decide) (by decide) (by decide) text_zero_at_20001
  · intro h
    exact h (fun _ _ _ => 9007199254740992) (fun _ _ _ => 9007199254740993) [] "" true _ _ rfl
      (Or.inl rfl) (by decide) (by decide) (by decide) percentage_zero_at_two_pow_53

/-- C1, amended: the verdict is YES if and only if the two sizes are equal, and
whenever the two sizes differ by exactly one byte the verdict is NO. The
reported difference is then 1 or -1 accordingly, for all 64-bit sizes but the
pair `2 ^ 63 - 1`, `2 ^ 63`, where the `int64_t` subtraction overflows. For
sizes up to `2 ^ 53`, the value of the percentage expression is then non-zero
when the first size is positive, but the percentage as written, with two
decimals, is non-zero only for small sizes: exactly when the first size is at
most 20000 if the second is one more, and exactly when the first size is at
most 19999 if the second is one less. When the first size is 0 the percentage
is zero and is written as `0.00`. -/
theorem C1_verdict_and_one_byte_difference (test_roaring_v1 test_roaring_v2 : Measure)
    (values : List Nat) (description : String) (portable : Bool) (r : Report)
    (log : List Call)
    (hr : compare_size test_roaring_v1 test_roaring_v2 values description portable = (r, log)) :
    (r.verdict = "✓ YES" ↔ r.v1_size = r.v2_size)
    ∧ ((r.v2_size = r.v1_size + 1 ∨ r.v1_size = r.v2_size + 1) → r.verdict = "✗ NO")
    ∧ (r.v2_size = r.v1_size + 1 → r.v2_size < 2 ^ 64 → r.v2_size ≠ 2 ^ 63 →
        r.difference = some 1)
    ∧ (r.v1_size = r.v2_size + 1 → r.v1_size < 2 ^ 64 → r.v1_size ≠ 2 ^ 63 →
        r.difference = some (-1))
    ∧ ((r.v2_size = r.v1_size + 1 ∨ r.v1_size = r.v2_size + 1) →
        0 < r.v1_size → r.v1_size ≤ 2 ^ 53 → r.v2_size ≤ 2 ^ 53 → r.percentage.value ≠ 0)
    ∧ (r.v2_size = r.v1_size + 1 → 0 < r.v1_size → r.v2_size ≤ 2 ^ 53 →
        (r.percentage_text.hundredths ≠ 0 ↔ r.v1_size ≤ 20000))
    ∧ (r.v1_size = r.v2_size + 1 → r.v1_size ≤ 2 ^ 53 →
        (r.percentage_text.hundredths ≠ 0 ↔ r.v1_size ≤ 19999))
    ∧ (r.v1_size = 0 → r.percentage.value = 0 ∧ r.percentage_text = ⟨false, 0⟩) := by
  obtain ⟨_, _, _, hd, hp, hv, ht⟩ := compare_size_report hr
  rw [ht, hd, hp, hv]
  generalize r.v1_size = a
  generalize r.v2_size = b
  refine ⟨verdict_yes_iff a b, ?_, ?_, ?_, ?_, ?_, ?_, ?_⟩
  · intro h
    exact verdict_no_of_ne (by omega)
  · exact difference_succ
  · exact difference_pred
  · intro h h0 ha hb
    rcases h with h | h
    · subst h
      have := percentage_succ_pos h0 hb
      intro e
      rw [e] at this
      norm_num at this
    · subst h
      have := percentage_pred_neg ha
      intro e
      rw [e] at this
      norm_num at this
  · intro h h0 hb
    subst h
    exact text_succ_ne_zero_iff h0 hb
  · intro h ha
    subst h
    exact text_pred_ne_zero_iff ha
  · intro h0
    have hz : (percentage a b).value = 0 := by
      unfold percentage
      rw [if_neg (by omega)]
    rw [hz]
    exact ⟨rfl, setprecision2_zero⟩

/-- Witness of the amended C1: with the sizes 8 and 9 the verdict is NO, the
difference is 1, the percentage is not zero and is not written as `0.00`. -/
theorem C1_verdict_and_one_byte_difference_witness :
    (compare_size (fun _ _ _ => 8) (fun _ _ _ => 9) [42] "" true).1.verdict = "✗ NO"
    ∧ (compare_size (fun _ _ _ => 8) (fun _ _ _ => 9) [42] "" true).1.difference = some 1
    ∧ (compare_size (fun _ _ _ => 8) (fun _ _ _ => 9) [42] "" true).1.percentage.value ≠ 0
    ∧ (compare_size (fun _ _ _ => 8) (fun _ _ _ => 9) [42] "" true).1.percentage_text.hundredths
        ≠ 0 :=
  ⟨(C1_verdict_and_one_byte_difference (fun _ _ _ => 8) (fun _ _ _ => 9) [42] "" true _ _
      rfl).2.1 (Or.inl rfl),
   (C1_verdict_and_one_byte_difference (fun _ _ _ => 8) (fun _ _ _ => 9) [42] "" true _ _
      rfl).2.2.1 rfl (by decide) (by decide),
   (C1_verdict_and_one_byte_difference (fun _ _ _ => 8) (fun _ _ _ => 9) [42] "" true _ _
      rfl).2.2.2.2.1 (Or.inl rfl) (by decide) (by decide) (by decide),
   ((C1_verdict_and_one_byte_difference (fun _ _ _ => 8) (fun _ _ _ => 9) [42] "" true _ _
      rfl).2.2.2.2.2.1 rfl (by decide) (by decide)).mpr (by decide)⟩

end RoaringCompare
